import Mathlib

/-!
# MemoryPool: a shallow embedding of `MemoryPool.h` / `MemoryPool.tcc`

The pool is a class template `MemoryPool<T, BlockSize>` with four private
pointers (`currentBlock_`, `currentSlot_`, `lastSlot_`, `freeSlot_`).  Its
member functions are embedded as pure functions on an explicit state.

Conventions of the embedding

* Addresses and `size_t` values are natural numbers below `WORD = 2 ^ 64`
  (an LP64 target: `sizeof(void*) = sizeof(size_t) = 8`); `nullptr` is `0`.
  Arithmetic on them wraps modulo `WORD` (`addW`, `subW`, `mulW`).
* The heap is seen through the `next` member of the `Slot_` object at each
  address: `World.next a` is the value of `reinterpret_cast<Slot_*>(a)->next`.
* `operator new(BlockSize)` is the environment: `os i` is the address returned
  by the `i`-th call (counted from `0`).  The calls made so far are logged in
  `World.news`, newest first.  Failure of `operator new` is not modelled.
* A C++ local that is returned without ever having been assigned has no
  determinate value; such a return value is `none`.
* A call of a value-returning function whose body ends without a `return` statement
  has no defined outcome (`callReturning`).
-/

set_option linter.unusedVariables false
set_option linter.dupNamespace false

namespace MemoryPool

/-! ## Machine words -/

/-- Number of values of a machine word (`2 ^ 64`). -/
def WORD : Nat := 18446744073709551616

/-- Largest `size_t` value: the result of converting `-1` to `size_t`. -/
def SIZE_MAX : Nat := WORD - 1

/-- Wrapping addition of machine words. -/
def addW (a b : Nat) : Nat := (a + b) % WORD

/-- Wrapping subtraction of machine words. -/
def subW (a b : Nat) : Nat := (a + (WORD - b % WORD)) % WORD

/-- Wrapping multiplication of machine words. -/
def mulW (a b : Nat) : Nat := (a * b) % WORD

/-- Value of `sizeof(slot_pointer_)`, `sizeof(data_pointer_)`: a pointer is one word. -/
def sizeofPointer : Nat := 8

/-- Value of `sizeof(size_type)`, where `size_type` is `size_t`. -/
def sizeofSizeType : Nat := 8

/-- Value of `alignof(Slot_*)`. -/
def alignofPointer : Nat := 8

/-! ## Template parameters -/

/-- The element type `T` as far as the pool depends on it: `sizeof(T)` and `alignof(T)`. -/
structure ElemType where
  size : Nat
  align : Nat
  deriving DecidableEq, Repr

/-- The template instantiation as the member functions see it: `BlockSize`,
`sizeof(slot_type_)` and `alignof(slot_type_)`. -/
structure Config where
  BlockSize : Nat
  sizeofSlot : Nat
  alignofSlot : Nat
  deriving DecidableEq, Repr

/-- Value of `alignof(Slot_)` for `union Slot_ { value_type element; Slot_* next; }`:
the stricter of the two members. -/
def alignofSlot_ (T : ElemType) : Nat := max T.align alignofPointer

/-- Value of `sizeof(Slot_)` for `union Slot_ { value_type element; Slot_* next; }`:
the larger member, rounded up to the alignment of the union. -/
def sizeofSlot_ (T : ElemType) : Nat :=
  (max T.size sizeofPointer + alignofSlot_ T - 1) / alignofSlot_ T * alignofSlot_ T

/-- The instantiation `MemoryPool<T, BlockSize>`. -/
def Config.ofElem (T : ElemType) (BlockSize : Nat) : Config :=
  { BlockSize := BlockSize, sizeofSlot := sizeofSlot_ T, alignofSlot := alignofSlot_ T }

/-- The class-scope check `static_assert(BlockSize >= 2 * sizeof(size_type), ...)`:
`true` when the instantiation compiles. -/
def staticAssert (BlockSize : Nat) : Bool :=
  decide (BlockSize ≥ 2 * sizeofSizeType)

/-! ## State -/

/-- The four data members of a `MemoryPool` object. -/
structure Pool where
  currentBlock_ : Nat
  currentSlot_ : Nat
  lastSlot_ : Nat
  freeSlot_ : Nat
  deriving DecidableEq, Repr

/-- A pool together with the memory it works on. -/
structure World where
  pool : Pool
  next : Nat → Nat
  news : List Nat

/-- The assignment `reinterpret_cast<slot_pointer_>(p)->next = v`. -/
def setNext (next : Nat → Nat) (p v : Nat) : Nat → Nat :=
  fun a => if a = p then v else next a

/-! ## Member functions -/

/-- Member `MemoryPool::padPointer`: `return ((align - result) % result);` with
`result` the address `p` as an integer.  (For `p = 0` the C++ remainder is
undefined; the callers pass a block address plus `sizeof(slot_pointer_)`.) -/
def padPointer (p align : Nat) : Nat :=
  subW align p % p

/-- Constructor `MemoryPool::MemoryPool()`: all four pointers are `nullptr`. -/
def MemoryPool : Pool :=
  { currentBlock_ := 0, currentSlot_ := 0, lastSlot_ := 0, freeSlot_ := 0 }

/-- A world holding a default-constructed pool: memory contents `next`, no call
to `operator new` made yet. -/
def fresh (next : Nat → Nat) : World :=
  { pool := MemoryPool, next := next, news := [] }

/-- Constructor `MemoryPool::MemoryPool(MemoryPool&& memoryPool)`: returns the new
object and the state the argument is left in. -/
def moveConstruct (memoryPool : Pool) : Pool × Pool :=
  ({ currentBlock_ := memoryPool.currentBlock_,
     currentSlot_ := memoryPool.currentSlot_,
     lastSlot_ := memoryPool.lastSlot_,
     freeSlot_ := memoryPool.freeSlot_ },
   { memoryPool with currentBlock_ := 0 })

/-- Member `MemoryPool::allocateBlock`. -/
def allocateBlock (cfg : Config) (os : Nat → Nat) (w : World) : World :=
  let newBolck := os w.news.length
  let body := addW newBolck sizeofPointer
  let bodyPadding := padPointer body cfg.alignofSlot
  { pool :=
      { currentBlock_ := newBolck,
        currentSlot_ := addW body bodyPadding,
        lastSlot_ := addW (subW (addW newBolck cfg.BlockSize) cfg.sizeofSlot) 1,
        freeSlot_ := w.pool.freeSlot_ },
    next := setNext w.next newBolck w.pool.currentBlock_,
    news := newBolck :: w.news }

/-- Member `MemoryPool::allocate(n, hint)`: the returned pointer (`none` when the
local `result` is returned without having been assigned) and the state after the call. -/
def allocate (cfg : Config) (os : Nat → Nat) (w : World) (n hint : Nat) :
    Option Nat × World :=
  if w.pool.freeSlot_ ≠ 0 then
    (some w.pool.freeSlot_,
      { w with pool := { w.pool with freeSlot_ := w.next w.pool.freeSlot_ } })
  else if w.pool.currentBlock_ ≥ w.pool.lastSlot_ then
    let w1 := allocateBlock cfg os w
    (some w1.pool.currentBlock_,
      { w1 with pool :=
          { w1.pool with currentBlock_ := addW w1.pool.currentBlock_ cfg.sizeofSlot } })
  else
    (none, w)

/-- Member `MemoryPool::deallocate(p, n)`. -/
def deallocate (w : World) (p n : Nat) : World :=
  if p ≠ 0 then
    { w with next := setNext w.next p w.pool.freeSlot_,
             pool := { w.pool with freeSlot_ := p } }
  else
    w

/-- Member `MemoryPool::maxSize`:
`maxBlock = -1 / BlockSize; return (BlockSize - sizeof(data_pointer_) / sizeof(slot_type_) * maxBlock);`
in `size_t` arithmetic. -/
def maxSize (cfg : Config) : Nat :=
  let maxBlock := SIZE_MAX / cfg.BlockSize
  subW cfg.BlockSize (mulW (sizeofPointer / cfg.sizeofSlot) maxBlock)

/-- Member `MemoryPool::construct<value_type>(p, args...)`: the placement `new`
writes the element into the slot at `p`; `image` is what the `next` member of
that slot reads afterwards (the union shares its storage with the element). -/
def construct (w : World) (p image : Nat) : World :=
  { w with next := setNext w.next p image }

/-- Member `MemoryPool::newElement(args...)`: `allocate()` then `construct`.  When
`allocate` yields no determinate pointer the placement `new` has no determinate
target and no write is recorded. -/
def newElement (cfg : Config) (os : Nat → Nat) (w : World) (image : Nat) :
    Option Nat × World :=
  match allocate cfg os w 1 0 with
  | (some result, w1) => (some result, construct w1 result image)
  | (none, w1) => (none, w1)

/-- Member `MemoryPool::deleteElement(p)`: for non-null `p` the element's
destructor runs (it leaves the four pointers alone, and `deallocate` overwrites
the slot's `next` right after) and then `deallocate(p)`. -/
def deleteElement (w : World) (p : Nat) : World :=
  if p ≠ 0 then deallocate w p 1 else w

/-- The loop of `MemoryPool::~MemoryPool`, from `curr`: the addresses passed to
`operator delete`, in order; `none` when `fuel` iterations do not reach `nullptr`. -/
def destructorLoop (next : Nat → Nat) : Nat → Nat → Option (List Nat)
  | 0, curr => if curr = 0 then some [] else none
  | fuel + 1, curr =>
    if curr = 0 then some []
    else (destructorLoop next fuel (next curr)).map (fun rest => curr :: rest)

/-- Destructor `MemoryPool::~MemoryPool`: the walk starts at `currentBlock_`. -/
def destructor (fuel : Nat) (w : World) : Option (List Nat) :=
  destructorLoop w.next fuel w.pool.currentBlock_

/-! ## Call sequences -/

/-- Calls `deallocate(p)` for each `p` of the list, first to last. -/
def deallocateAll (w : World) : List Nat → World
  | [] => w
  | p :: ps => deallocateAll (deallocate w p 1) ps

/-- Calls `allocate()` `k` times: the returned pointers in call order, and the final state. -/
def allocateN (cfg : Config) (os : Nat → Nat) : Nat → World → List (Option Nat) × World
  | 0, w => ([], w)
  | k + 1, w =>
    let r := allocate cfg os w 1 0
    let rest := allocateN cfg os k r.2
    (r.1 :: rest.1, rest.2)

/-! ## Instantiations used in the concrete evaluations -/

/-- The instantiation `MemoryPool<int>` of `MP_test.cpp`: `sizeof(int) = alignof(int) = 4`,
default `BlockSize = 4096`. -/
def intPool : Config := Config.ofElem { size := 4, align := 4 } 4096

/-- The instantiation of the block-growth scenario: 8-byte elements, `BlockSize = 64`. -/
def smallPool : Config := Config.ofElem { size := 8, align := 8 } 64

/-- The instantiation for a 64-byte element with `BlockSize = 64`: the static assertion
accepts it, and every block is exhausted by its first allocation. -/
def widePool : Config := Config.ofElem { size := 64, align := 8 } 64

/-- A system allocator that hands out page-aligned blocks `4096, 8192, 12288, ...`. -/
def pageOs (i : Nat) : Nat := 4096 * (i + 1)

/-- Memory whose every `next` member reads as `nullptr`. -/
def zeroMem : Nat → Nat := fun _ => 0

/-- The instantiation for a 16-byte element with 16-byte alignment (`long double` on
x86-64), default `BlockSize = 4096`. -/
def longDoublePool : Config := Config.ofElem { size := 16, align := 16 } 4096

/-- The capacity as the specification words it: the number of slots per block,
`(BlockSize - sizeof(pointer)) / sizeof(slot)`, times the maximal number of blocks,
`SIZE_MAX / BlockSize`, in `size_t` arithmetic. -/
def maxSizeStated (cfg : Config) : Nat :=
  mulW (subW cfg.BlockSize sizeofPointer / cfg.sizeofSlot) (SIZE_MAX / cfg.BlockSize)

/-- One `newElement` on a fresh `MemoryPool<int>` followed by `deleteElement` of the
pointer it returned (`4096`, the first block handed out by `pageOs`). -/
def newThenDelete (next : Nat → Nat) (image : Nat) : World :=
  deleteElement (newElement intPool pageOs (fresh next) image).2 4096

/-- State of the world right after the first `allocate` on a default-constructed pool. -/
def afterFirstAllocate (cfg : Config) (os : Nat → Nat) (next : Nat → Nat) : World :=
  { pool :=
      { currentBlock_ := addW (os 0) cfg.sizeofSlot,
        currentSlot_ :=
          addW (addW (os 0) sizeofPointer)
            (padPointer (addW (os 0) sizeofPointer) cfg.alignofSlot),
        lastSlot_ := addW (subW (addW (os 0) cfg.BlockSize) cfg.sizeofSlot) 1,
        freeSlot_ := 0 },
    next := setNext next (os 0) 0,
    news := [os 0] }

/-- A pool state reached by running the code: `MemoryPool<int>` after its first
`allocate`, with the first block at `4096`. -/
def usedPool : Pool :=
  { currentBlock_ := 4104, currentSlot_ := 5136, lastSlot_ := 8185, freeSlot_ := 0 }

/-! ## The free list as a chain of `next` links -/

/-- Following `next` from `head` visits exactly the slots of the list, in order,
and then arrives at `tail`. -/
def FreeChain (next : Nat → Nat) : Nat → List Nat → Nat → Prop
  | head, [], tail => head = tail
  | head, p :: ps, tail => head = p ∧ FreeChain next (next p) ps tail

/-! ## Copy construction, move assignment, and further call sequences -/

/-- Constructor `MemoryPool::MemoryPool(const MemoryPool& memoryPool)`, which delegates to
`MemoryPool()` and has an empty body: the new object, and the world (source pool,
memory, blocks acquired) after the call. -/
def copyConstruct (w : World) : Pool × World :=
  (MemoryPool, w)

/-- Constructor template `MemoryPool::MemoryPool(const MemoryPool<U>& memoryPool)`, which
also delegates to `MemoryPool()` and has an empty body; the argument is a pool of
another element type `U`. -/
def copyConstructU (w : World) : Pool × World :=
  (MemoryPool, w)

/-- A call of a function whose return type is not `void`.  `body` is what running the
function body gives: the state it leaves and the value of the `return` statement that
ended it, `none` when control reached the closing brace without one.  The call has a
defined outcome, the returned value and the state, only in the first case; flowing off
the end of such a function is undefined behaviour, `none`. -/
def callReturning {σ ρ : Type} (body : σ × Option ρ) : Option (ρ × σ) :=
  match body.2 with
  | some value => some (value, body.1)
  | none => none

/-- The body of `MemoryPool::operator=(MemoryPool&& memoryPool)`.  Pool objects live at
addresses; `objs` gives the state of the object at each address, `self` is `this` and
`other` is `&memoryPool`.  The statements of the `if` run only when the two addresses
differ.  The body contains no `return` statement on either path, so the second
component, the returned `MemoryPool&`, is `none`. -/
def moveAssignBody (objs : Nat → Pool) (self other : Nat) : (Nat → Pool) × Option Nat :=
  (if self ≠ other then
      fun x =>
        if x = self then
          { currentBlock_ := (objs other).currentBlock_,
            currentSlot_ := (objs other).currentSlot_,
            lastSlot_ := (objs other).lastSlot_,
            freeSlot_ := (objs other).freeSlot_ }
        else if x = other then
          { objs other with currentBlock_ := (objs self).currentBlock_ }
        else objs x
    else
      objs,
    none)

/-- Member `MemoryPool::operator=(MemoryPool&& memoryPool)`, declared to return
`MemoryPool&`: the outcome of a call, the returned reference and the objects after it,
or `none` when the call has no defined outcome. -/
def moveAssign (objs : Nat → Pool) (self other : Nat) : Option (Nat × (Nat → Pool)) :=
  callReturning (moveAssignBody objs self other)

/-- Calls `allocateBlock()` `m` times. -/
def allocateBlockN (cfg : Config) (os : Nat → Nat) : Nat → World → World
  | 0, w => w
  | m + 1, w => allocateBlock cfg os (allocateBlockN cfg os m w)

/-- The blocks handed out by the first `m` calls of `operator new`, newest first. -/
def blocksNewestFirst (os : Nat → Nat) : Nat → List Nat
  | 0 => []
  | m + 1 => os m :: blocksNewestFirst os m

/-- One iteration of the timing loop of `MP_test.cpp`:
`x = pool.newElement(); pool.deleteElement(x);`.  Returns `x` and the state after the
iteration.  When `newElement` yields no determinate pointer there is no determinate
argument for `deleteElement` and nothing more is recorded. -/
def newDeleteIteration (cfg : Config) (os : Nat → Nat) (w : World) (image : Nat) :
    Option Nat × World :=
  match newElement cfg os w image with
  | (some x, w1) => (some x, deleteElement w1 x)
  | (none, w1) => (none, w1)

/-- The timing loop of `MP_test.cpp`, one iteration per entry of the list (the entry is
the image of the element constructed in that iteration): for each iteration the
pointer returned by `newElement` and the four pointers of the pool after the iteration,
and the final state. -/
def timingLoop (cfg : Config) (os : Nat → Nat) :
    List Nat → World → List (Option Nat × Pool) × World
  | [], w => ([], w)
  | image :: rest, w =>
    let r := newDeleteIteration cfg os w image
    let t := timingLoop cfg os rest r.2
    ((r.1, r.2.pool) :: t.1, t.2)

/-- Two pool objects, at addresses `1` and `2`: the used pool of `usedPool` and an empty one. -/
def twoPools : Nat → Pool :=
  fun x => if x = 1 then MemoryPool else if x = 2 then usedPool else MemoryPool

/-- A world whose pool has one slot (`4096`) on its free list, linked to null, and an
untouched rest of its first block. -/
def recycledWorld : World :=
  { pool := { currentBlock_ := 4104, currentSlot_ := 5136, lastSlot_ := 8185,
              freeSlot_ := 4096 },
    next := zeroMem,
    news := [4096] }

/-! ## Lemmas on the free list -/

theorem setNext_same (next : Nat → Nat) (p v : Nat) : setNext next p v p = v := by
  simp [setNext]

theorem setNext_other (next : Nat → Nat) (p v a : Nat) (h : a ≠ p) :
    setNext next p v a = next a := by
  simp [setNext, h]

theorem freeChain_setNext (next : Nat → Nat) (p v : Nat) (ps : List Nat) (hp : p ∉ ps)
    (head tail : Nat) (h : FreeChain next head ps tail) :
    FreeChain (setNext next p v) head ps tail := by
  induction ps generalizing head with
  | nil => exact h
  | cons q qs ih =>
    obtain ⟨hq, hrest⟩ := h
    have hne : q ≠ p := fun e => hp (by simp [e])
    have hp2 : p ∉ qs := fun e => hp (List.mem_cons_of_mem q e)
    refine ⟨hq, ?_⟩
    rw [setNext_other next p v q hne]
    exact ih hp2 (next q) hrest

theorem deallocate_pool (w : World) (p n : Nat) (hp : p ≠ 0) :
    deallocate w p n =
      { pool := { w.pool with freeSlot_ := p },
        next := setNext w.next p w.pool.freeSlot_,
        news := w.news } := by
  simp [deallocate, hp]

/-- After `deallocate` of pairwise-distinct non-null slots the free list holds
them in reverse order in front of its earlier content; nothing else moves. -/
theorem deallocateAll_chain (ss : List Nat) :
    ∀ (w : World) (old : List Nat) (tail : Nat),
      ss.Nodup → (∀ p ∈ ss, p ≠ 0) → (∀ p ∈ ss, p ∉ old) →
      FreeChain w.next w.pool.freeSlot_ old tail →
      FreeChain (deallocateAll w ss).next (deallocateAll w ss).pool.freeSlot_
          (ss.reverse ++ old) tail ∧
        (deallocateAll w ss).news = w.news ∧
        (deallocateAll w ss).pool.currentBlock_ = w.pool.currentBlock_ ∧
        (deallocateAll w ss).pool.currentSlot_ = w.pool.currentSlot_ ∧
        (deallocateAll w ss).pool.lastSlot_ = w.pool.lastSlot_ := by
  induction ss with
  | nil =>
    intro w old tail _ _ _ h
    simpa [deallocateAll] using h
  | cons p ps ih =>
    intro w old tail hnd hnz hdis hch
    have hp0 : p ≠ 0 := hnz p (by simp)
    have hpold : p ∉ old := hdis p (by simp)
    obtain ⟨hpps, hnd2⟩ := List.nodup_cons.mp hnd
    have hstep : FreeChain (deallocate w p 1).next (deallocate w p 1).pool.freeSlot_
        (p :: old) tail := by
      rw [deallocate_pool w p 1 hp0]
      refine ⟨rfl, ?_⟩
      show FreeChain (setNext w.next p w.pool.freeSlot_)
        (setNext w.next p w.pool.freeSlot_ p) old tail
      rw [setNext_same]
      exact freeChain_setNext w.next p _ old hpold _ tail hch
    have hdis2 : ∀ q ∈ ps, q ∉ p :: old := by
      intro q hq hmem
      rcases List.mem_cons.mp hmem with e | e
      · exact hpps (e ▸ hq)
      · exact hdis q (List.mem_cons_of_mem p hq) e
    have h := ih (deallocate w p 1) (p :: old) tail hnd2
      (fun q hq => hnz q (List.mem_cons_of_mem p hq)) hdis2 hstep
    have hframe : (deallocate w p 1).news = w.news ∧
        (deallocate w p 1).pool.currentBlock_ = w.pool.currentBlock_ ∧
        (deallocate w p 1).pool.currentSlot_ = w.pool.currentSlot_ ∧
        (deallocate w p 1).pool.lastSlot_ = w.pool.lastSlot_ := by
      rw [deallocate_pool w p 1 hp0]
      exact ⟨rfl, rfl, rfl, rfl⟩
    simp only [deallocateAll, List.reverse_cons, List.append_assoc, List.singleton_append]
    obtain ⟨h1, h2, h3, h4, h5⟩ := h
    obtain ⟨f1, f2, f3, f4⟩ := hframe
    exact ⟨h1, h2.trans f1, h3.trans f2, h4.trans f3, h5.trans f4⟩

/-- Popping a free list of non-null slots: `allocate` returns them front to
back, takes no block, and leaves the other pointers and the memory alone. -/
theorem allocateN_chain (cfg : Config) (os : Nat → Nat) (ps : List Nat) :
    ∀ (w : World) (tail : Nat),
      (∀ p ∈ ps, p ≠ 0) → FreeChain w.next w.pool.freeSlot_ ps tail →
      (allocateN cfg os ps.length w).1 = ps.map some ∧
        (allocateN cfg os ps.length w).2 =
          { w with pool := { w.pool with freeSlot_ := tail } } := by
  induction ps with
  | nil =>
    intro w tail _ h
    have h0 : w.pool.freeSlot_ = tail := h
    subst h0
    exact ⟨rfl, rfl⟩
  | cons p ps ih =>
    intro w tail hnz hch
    obtain ⟨hhead, hrest⟩ := hch
    have hp0 : p ≠ 0 := hnz p (by simp)
    have hal : allocate cfg os w 1 0 =
        (some p, { w with pool := { w.pool with freeSlot_ := w.next p } }) := by
      simp [allocate, hhead, hp0]
    have h := ih { w with pool := { w.pool with freeSlot_ := w.next p } } tail
      (fun q hq => hnz q (List.mem_cons_of_mem p hq)) hrest
    simp only [List.length_cons, allocateN, hal, List.map_cons]
    exact ⟨by rw [h.1], by rw [h.2]⟩

/-! ## The first allocation on an empty pool, and the allocations after it -/

theorem allocate_fresh (cfg : Config) (os : Nat → Nat) (next : Nat → Nat) (n hint : Nat) :
    allocate cfg os (fresh next) n hint = (some (os 0), afterFirstAllocate cfg os next) := by
  simp [allocate, fresh, MemoryPool, allocateBlock, afterFirstAllocate]

/-- With an empty free list and `currentBlock_` below `lastSlot_`, neither branch of
`allocate` that assigns `result` is taken. -/
theorem allocate_unassigned (cfg : Config) (os : Nat → Nat) (w : World) (n hint : Nat)
    (hfree : w.pool.freeSlot_ = 0) (hlt : w.pool.currentBlock_ < w.pool.lastSlot_) :
    allocate cfg os w n hint = (none, w) := by
  have h : ¬ w.pool.lastSlot_ ≤ w.pool.currentBlock_ := Nat.not_le.mpr hlt
  simp [allocate, hfree, h]

theorem allocateN_unassigned (cfg : Config) (os : Nat → Nat) (w : World)
    (hfree : w.pool.freeSlot_ = 0) (hlt : w.pool.currentBlock_ < w.pool.lastSlot_) (k : Nat) :
    allocateN cfg os k w = (List.replicate k none, w) := by
  induction k with
  | zero => rfl
  | succ k ih =>
    simp only [allocateN, allocate_unassigned cfg os w 1 0 hfree hlt, ih, List.replicate_succ]

/-- In a block that lies inside the address space and holds at least two slot
widths, the block-chain head advanced by one slot is still below `lastSlot_`. -/
theorem afterFirstAllocate_below (cfg : Config) (os : Nat → Nat) (next : Nat → Nat)
    (hfit : os 0 + cfg.BlockSize < WORD) (hw : 0 < cfg.sizeofSlot)
    (hroom : 2 * cfg.sizeofSlot ≤ cfg.BlockSize) :
    (afterFirstAllocate cfg os next).pool.currentBlock_
      < (afterFirstAllocate cfg os next).pool.lastSlot_ := by
  simp only [afterFirstAllocate, addW, subW, WORD] at *
  omega

/-- The state after the first allocation, for `MemoryPool<int>` with the first block at `4096`. -/
theorem afterFirstAllocate_intPool (next : Nat → Nat) :
    (afterFirstAllocate intPool pageOs next).pool = usedPool := by
  rfl

/-- The state after one `newElement` and the matching `deleteElement` on a fresh
`MemoryPool<int>`: the slot at `4096` is on the free list, the block-chain head is `4104`. -/
theorem newThenDelete_eq (next : Nat → Nat) (image : Nat) :
    newThenDelete next image =
      { pool := { currentBlock_ := 4104, currentSlot_ := 5136, lastSlot_ := 8185,
                  freeSlot_ := 4096 },
        next := setNext (setNext (setNext next 4096 0) 4096 image) 4096 0,
        news := [4096] } := by
  simp only [newThenDelete, newElement, allocate_fresh, deleteElement, deallocate, construct]
  rfl

/-! ## The timing loop -/

/-- An iteration that starts with the slot `b` alone on the free list pops `b`, constructs
in it and pushes it back: the four pointers and the acquired blocks are as before. -/
theorem newDeleteIteration_steady (cfg : Config) (os : Nat → Nat) (w : World) (image b : Nat)
    (hb : b ≠ 0) (hf : w.pool.freeSlot_ = b) (hn : w.next b = 0) :
    newDeleteIteration cfg os w image =
      (some b, { pool := w.pool, next := setNext (setNext w.next b image) b 0,
                 news := w.news }) := by
  have ha : allocate cfg os w 1 0 =
      (some b, { w with pool := { w.pool with freeSlot_ := 0 } }) := by
    simp [allocate, hf, hb, hn]
  obtain ⟨pool, next, news⟩ := w
  obtain ⟨cb, cs, ls, fs⟩ := pool
  simp only at hf hn ha
  subst hf
  simp [newDeleteIteration, newElement, ha, deleteElement, deallocate, construct, hb]

theorem timingLoop_steady (cfg : Config) (os : Nat → Nat) (b : Nat) (hb : b ≠ 0)
    (images : List Nat) :
    ∀ w : World, w.pool.freeSlot_ = b → w.next b = 0 →
      (timingLoop cfg os images w).1 = List.replicate images.length (some b, w.pool) ∧
        (timingLoop cfg os images w).2.news = w.news := by
  induction images with
  | nil =>
    intro w _ _
    exact ⟨rfl, rfl⟩
  | cons image rest ih =>
    intro w hf hn
    have hstep := newDeleteIteration_steady cfg os w image b hb hf hn
    have h := ih { pool := w.pool, next := setNext (setNext w.next b image) b 0,
                   news := w.news } hf (setNext_same _ _ _)
    simp only [timingLoop, hstep, List.length_cons, List.replicate_succ]
    exact ⟨by rw [h.1], h.2⟩

/-- The first iteration on a fresh pool: it acquires the block `os 0`, returns its start
address and leaves that slot on the free list. -/
theorem newDeleteIteration_fresh (cfg : Config) (os : Nat → Nat) (next : Nat → Nat)
    (image : Nat) (hnew : os 0 ≠ 0) :
    newDeleteIteration cfg os (fresh next) image =
      (some (os 0),
        { pool := { (afterFirstAllocate cfg os next).pool with freeSlot_ := os 0 },
          next := setNext (setNext (setNext next (os 0) 0) (os 0) image) (os 0) 0,
          news := [os 0] }) := by
  simp [newDeleteIteration, newElement, allocate_fresh, deleteElement, deallocate, construct,
    hnew, afterFirstAllocate]

/-! ## The block chain -/

theorem blocksNewestFirst_length (os : Nat → Nat) (m : Nat) :
    (blocksNewestFirst os m).length = m := by
  induction m with
  | zero => rfl
  | succ m ih => simp [blocksNewestFirst, ih]

theorem mem_blocksNewestFirst (os : Nat → Nat) (m p : Nat) :
    p ∈ blocksNewestFirst os m ↔ ∃ i, i < m ∧ os i = p := by
  induction m with
  | zero => simp [blocksNewestFirst]
  | succ m ih =>
    simp only [blocksNewestFirst, List.mem_cons, ih]
    constructor
    · rintro (h | ⟨i, hi, h⟩)
      · exact ⟨m, Nat.lt_succ_self m, h.symm⟩
      · exact ⟨i, Nat.lt_succ_of_lt hi, h⟩
    · rintro ⟨i, hi, h⟩
      rcases Nat.lt_succ_iff_lt_or_eq.mp hi with hlt | heq
      · exact Or.inr ⟨i, hlt, h⟩
      · exact Or.inl (by rw [← h, heq])

/-- After `m` calls of `allocateBlock` on an empty pool, with pairwise-distinct blocks, the
back-links lead from the chain head through the `m` blocks, newest first, to null. -/
theorem allocateBlockN_chain (cfg : Config) (os : Nat → Nat) (next : Nat → Nat) :
    ∀ m : Nat, (∀ i j, i < m → j < m → os i = os j → i = j) →
      (allocateBlockN cfg os m (fresh next)).news = blocksNewestFirst os m ∧
        FreeChain (allocateBlockN cfg os m (fresh next)).next
          (allocateBlockN cfg os m (fresh next)).pool.currentBlock_
          (blocksNewestFirst os m) 0 := by
  intro m
  induction m with
  | zero =>
    intro _
    exact ⟨rfl, rfl⟩
  | succ m ih =>
    intro hinj
    obtain ⟨hnews, hchain⟩ := ih (fun i j hi hj h =>
      hinj i j (Nat.lt_succ_of_lt hi) (Nat.lt_succ_of_lt hj) h)
    have hlen : (allocateBlockN cfg os m (fresh next)).news.length = m := by
      rw [hnews, blocksNewestFirst_length]
    have hnot : os m ∉ blocksNewestFirst os m := by
      intro hmem
      obtain ⟨i, hi, h⟩ := (mem_blocksNewestFirst os m (os m)).mp hmem
      have := hinj i m (Nat.lt_succ_of_lt hi) (Nat.lt_succ_self m) h
      omega
    simp only [allocateBlockN, allocateBlock, hnews, blocksNewestFirst_length,
      blocksNewestFirst]
    refine ⟨trivial, rfl, ?_⟩
    rw [setNext_same]
    exact freeChain_setNext _ (os m) _ _ hnot _ 0 hchain

/-- The destructor loop along a chain of non-null blocks that ends at null releases
exactly the blocks of the chain, in order, given at least as much fuel as blocks. -/
theorem destructorLoop_chain (next : Nat → Nat) (ps : List Nat) :
    ∀ (head extra : Nat), FreeChain next head ps 0 → (∀ p ∈ ps, p ≠ 0) →
      destructorLoop next (ps.length + extra) head = some ps := by
  induction ps with
  | nil =>
    intro head extra h _
    have h0 : head = 0 := h
    subst h0
    cases extra <;> simp [destructorLoop]
  | cons p ps ih =>
    intro head extra h hnz
    obtain ⟨hhead, hrest⟩ := h
    subst hhead
    have hp : head ≠ 0 := hnz head (by simp)
    have hrec := ih (next head) extra hrest (fun q hq => hnz q (List.mem_cons_of_mem head hq))
    have hlen : (head :: ps).length + extra = (ps.length + extra) + 1 := by
      simp only [List.length_cons]; omega
    rw [hlen]
    simp [destructorLoop, hp, hrec]

/-! ## Claims -/

/-- C1 (LIFO reuse). From any pool state, deallocating pairwise-distinct non-null
slots `s1, ..., sk` in that order and then calling `allocate` `k` times returns
`sk, ..., s1` in that order; no block is acquired, and the pool ends with the
free-list head, block-chain head, cursor and boundary it started with. -/
theorem C1_lifo_reuse (cfg : Config) (os : Nat → Nat) (w : World) (ss : List Nat)
    (hk : 1 ≤ ss.length) (hdistinct : ss.Nodup) (hnonnull : ∀ p ∈ ss, p ≠ 0) :
    (allocateN cfg os ss.length (deallocateAll w ss)).1 = ss.reverse.map some ∧
      (allocateN cfg os ss.length (deallocateAll w ss)).2.news = w.news ∧
      (allocateN cfg os ss.length (deallocateAll w ss)).2.pool = w.pool := by
  have hd := deallocateAll_chain ss w [] w.pool.freeSlot_ hdistinct hnonnull
    (fun _ _ => List.not_mem_nil _) rfl
  rw [List.append_nil] at hd
  obtain ⟨hch, hnews, hb, hs, hl⟩ := hd
  have ha := allocateN_chain cfg os ss.reverse (deallocateAll w ss) w.pool.freeSlot_
    (fun p hp => hnonnull p (List.mem_reverse.mp hp)) hch
  rw [List.length_reverse] at ha
  refine ⟨ha.1, ?_, ?_⟩
  · rw [ha.2]; exact hnews
  · rw [ha.2]
    cases hw : w.pool
    simp only [hw] at hb hs hl
    simp [hb, hs, hl]

/-- Witness for C1: three allocations on a fresh pool of 64-byte slots hand out
`4096, 8192, 12288`; freeing them in that order and allocating three times returns
`12288, 8192, 4096`, and the three blocks acquired before remain the only ones. -/
theorem C1_lifo_reuse_witness :
    (allocateN widePool pageOs 3 (fresh zeroMem)).1 = [some 4096, some 8192, some 12288] ∧
      (allocateN widePool pageOs 3
          (deallocateAll (allocateN widePool pageOs 3 (fresh zeroMem)).2
            [4096, 8192, 12288])).1
        = [some 12288, some 8192, some 4096] ∧
      (allocateN widePool pageOs 3
          (deallocateAll (allocateN widePool pageOs 3 (fresh zeroMem)).2
            [4096, 8192, 12288])).2.news
        = [12288, 8192, 4096] :=
  ⟨by decide,
    (C1_lifo_reuse widePool pageOs (allocateN widePool pageOs 3 (fresh zeroMem)).2
      [4096, 8192, 12288] (by decide) (by decide) (by decide)).1,
    (C1_lifo_reuse widePool pageOs (allocateN widePool pageOs 3 (fresh zeroMem)).2
      [4096, 8192, 12288] (by decide) (by decide) (by decide)).2.1⟩

/-- C2 (uniqueness). What the code does instead: on a fresh pool whose first block lies
inside the address space and holds at least two slot widths, `n = k + 2` consecutive
calls of `allocate` return the start of the first block and then `k + 1` times the
never-assigned local `result`; only one determinate address is produced. -/
theorem C2_allocations_after_first_unassigned (cfg : Config) (os : Nat → Nat)
    (next : Nat → Nat) (k : Nat)
    (hfit : os 0 + cfg.BlockSize < WORD) (hw : 0 < cfg.sizeofSlot)
    (hroom : 2 * cfg.sizeofSlot ≤ cfg.BlockSize) :
    (allocateN cfg os (k + 2) (fresh next)).1 = some (os 0) :: List.replicate (k + 1) none := by
  have hb := afterFirstAllocate_below cfg os next hfit hw hroom
  have h := allocateN_unassigned cfg os (afterFirstAllocate cfg os next) rfl hb (k + 1)
  show (allocate cfg os (fresh next) 1 0).1
      :: (allocateN cfg os (k + 1) (allocate cfg os (fresh next) 1 0).2).1 = _
  rw [allocate_fresh, h]

/-- Witness for C2: two allocations on a fresh `MemoryPool<int>` return `4096` and then
no determinate address. -/
theorem C2_allocations_after_first_unassigned_witness :
    (allocateN intPool pageOs 2 (fresh zeroMem)).1 = [some 4096, none] :=
  C2_allocations_after_first_unassigned intPool pageOs zeroMem 0
    (by decide) (by decide) (by decide)

/-- C3 (carving step). What the code does instead, in a state with an empty free list
and the cursor below the boundary: `allocate` never looks at the cursor.  If
`currentBlock_` is below `lastSlot_` it returns the never-assigned `result` and changes
nothing (the cursor is not advanced); otherwise it acquires a block and returns that
block's start address. -/
theorem C3_allocate_ignores_cursor (cfg : Config) (os : Nat → Nat) (w : World) (n hint : Nat)
    (hfree : w.pool.freeSlot_ = 0) (hcursor : w.pool.currentSlot_ < w.pool.lastSlot_) :
    (w.pool.currentBlock_ < w.pool.lastSlot_ → allocate cfg os w n hint = (none, w)) ∧
      (w.pool.lastSlot_ ≤ w.pool.currentBlock_ →
        (allocate cfg os w n hint).1 = some (os w.news.length) ∧
          (allocate cfg os w n hint).2.news = os w.news.length :: w.news) := by
  constructor
  · intro hlt
    exact allocate_unassigned cfg os w n hint hfree hlt
  · intro hge
    simp [allocate, hfree, hge, allocateBlock]

/-- Witness for C3: the state after one allocation on a fresh `MemoryPool<int>` (cursor
`5136`, boundary `8185`, empty free list); the next `allocate` returns no determinate
address and leaves the state, cursor included, as it was. -/
theorem C3_allocate_ignores_cursor_witness :
    (afterFirstAllocate intPool pageOs zeroMem).pool.currentSlot_ = 5136 ∧
      (afterFirstAllocate intPool pageOs zeroMem).pool.lastSlot_ = 8185 ∧
      allocate intPool pageOs (afterFirstAllocate intPool pageOs zeroMem) 1 0
        = (none, afterFirstAllocate intPool pageOs zeroMem) :=
  ⟨by decide, by decide,
    (C3_allocate_ignores_cursor intPool pageOs (afterFirstAllocate intPool pageOs zeroMem) 1 0
      rfl (by decide)).1 (by decide)⟩

/-- C4 (exhaustion step). What the code does on a pool that has no block yet: `allocate`
acquires one block and returns the start address of that block, where the back-link
is stored, not the first usable slot that `allocateBlock` put in `currentSlot_`; and it
leaves the block-chain head one slot width past the start of the block. -/
theorem C4_allocate_returns_block_start (cfg : Config) (os : Nat → Nat) (next : Nat → Nat)
    (n hint : Nat) :
    (allocate cfg os (fresh next) n hint).1 = some (os 0) ∧
      (allocate cfg os (fresh next) n hint).2.news = [os 0] ∧
      (allocate cfg os (fresh next) n hint).2.next (os 0) = 0 ∧
      (allocate cfg os (fresh next) n hint).2.pool.currentBlock_
        = addW (os 0) cfg.sizeofSlot ∧
      (allocate cfg os (fresh next) n hint).2.pool.currentSlot_
        = addW (addW (os 0) sizeofPointer)
            (padPointer (addW (os 0) sizeofPointer) cfg.alignofSlot) := by
  rw [allocate_fresh]
  exact ⟨rfl, rfl, setNext_same next (os 0) 0, rfl, rfl⟩

/-- C5 (block growth). What the code does instead: on a fresh pool whose first block
lies inside the address space and holds at least two slot widths, any number
`k + 1` of allocations without deallocation acquires exactly one block. -/
theorem C5_single_block_acquired (cfg : Config) (os : Nat → Nat) (next : Nat → Nat) (k : Nat)
    (hfit : os 0 + cfg.BlockSize < WORD) (hw : 0 < cfg.sizeofSlot)
    (hroom : 2 * cfg.sizeofSlot ≤ cfg.BlockSize) :
    (allocateN cfg os (k + 1) (fresh next)).2.news = [os 0] := by
  have hb := afterFirstAllocate_below cfg os next hfit hw hroom
  simp only [allocateN, allocate_fresh]
  rw [allocateN_unassigned cfg os (afterFirstAllocate cfg os next) rfl hb k]
  rfl

/-- Witness for C5: block size 64, slot width 8, ten allocations; one block (`4096`) is
acquired although `(64 - 8) / 8 = 7 < 10`. -/
theorem C5_single_block_acquired_witness :
    smallPool.BlockSize = 64 ∧ smallPool.sizeofSlot = 8 ∧
      (smallPool.BlockSize - sizeofPointer) / smallPool.sizeofSlot < 10 ∧
      (allocateN smallPool pageOs 10 (fresh zeroMem)).2.news = [4096] :=
  ⟨by decide, by decide, by decide,
    C5_single_block_acquired smallPool pageOs zeroMem 9 (by decide) (by decide) (by decide)⟩

/-- C6 (alignment padding). What the code computes at the body address `4104` (block at
`4096`) for alignment `16`: `padPointer` returns `1040`, which is not below `16`, and
`4104 + 1040 = 5144` leaves remainder `8` modulo `16`; `allocateBlock` sets exactly this
misaligned address as the cursor. -/
theorem C6_padPointer_not_alignment_padding :
    padPointer 4104 16 = 1040 ∧
      ¬ padPointer 4104 16 < 16 ∧
      addW 4104 (padPointer 4104 16) % 16 = 8 ∧
      longDoublePool.alignofSlot = 16 ∧
      (allocateBlock longDoublePool pageOs (fresh zeroMem)).pool.currentSlot_ = 5144 ∧
      (allocateBlock longDoublePool pageOs (fresh zeroMem)).pool.currentSlot_ % 16 = 8 := by
  decide

/-- C7 (teardown). What the code does after one `newElement` and one `deleteElement` on a
fresh `MemoryPool<int>` whose block is at `4096`: the only address obtained from
`operator new` is `4096`, yet the destructor starts at `currentBlock_ = 4104`, hands
`4104` to `operator delete` first and goes on along whatever the memory at `4104` holds;
when that memory reads as null the destructor releases `4104` alone, and never `4096`. -/
theorem C7_destructor_releases_past_block_start (next : Nat → Nat) (image fuel : Nat) :
    (newElement intPool pageOs (fresh next) image).1 = some 4096 ∧
      (newThenDelete next image).news = [4096] ∧
      (newThenDelete next image).pool.currentBlock_ = 4104 ∧
      destructor (fuel + 1) (newThenDelete next image)
        = (destructorLoop (newThenDelete next image).next fuel
            ((newThenDelete next image).next 4104)).map (fun rest => 4104 :: rest) ∧
      destructor (fuel + 1) (newThenDelete zeroMem image) = some [4104] := by
  refine ⟨?_, ?_, ?_, ?_, ?_⟩
  · simp only [newElement, allocate_fresh]; rfl
  · rw [newThenDelete_eq]
  · rw [newThenDelete_eq]
  · rw [newThenDelete_eq]; simp [destructor, destructorLoop]
  · rw [newThenDelete_eq]
    cases fuel <;> simp [destructor, destructorLoop, setNext, zeroMem]

/-- C8 (capacity query). What the code computes for `MemoryPool<int>` (block size 4096,
slot width 8): `4096 - (8 / 8) * (SIZE_MAX / 4096)` wrapped to a machine word, which is
`18442240474082185217`, whereas slots per block times blocks is
`511 * 4503599627370495 = 2301339409586322945`; for 16-byte slots the code returns the
block size itself. -/
theorem C8_maxSize_is_not_slots_times_blocks :
    intPool.BlockSize = 4096 ∧ intPool.sizeofSlot = 8 ∧
      maxSize intPool = 18442240474082185217 ∧
      maxSizeStated intPool = 2301339409586322945 ∧
      maxSize intPool ≠ maxSizeStated intPool ∧
      maxSize longDoublePool = 4096 ∧
      maxSizeStated longDoublePool = 1148417904979476225 := by
  decide

/-- C9 (misconfiguration rejection). What the static assertion accepts: for an element of
16 bytes (slot width 16) the block size 16 passes `BlockSize >= 2 * sizeof(size_type)`
although it is below two slot widths (32), and the block has no room for the 8-byte
back-link plus one slot. -/
theorem C9_staticAssert_accepts_small_block :
    sizeofSlot_ { size := 16, align := 8 } = 16 ∧
      staticAssert 16 = true ∧
      16 < 2 * sizeofSlot_ { size := 16, align := 8 } ∧
      16 < sizeofPointer + sizeofSlot_ { size := 16, align := 8 } := by
  decide

/-- C10 (move construction), the claim as stated fails: moving from the pool state
reached after one allocation does hand the four pointers to the destination, but the
source is not left empty. -/
theorem C10_move_source_not_empty :
    ¬ ((moveConstruct usedPool).1 = usedPool ∧ (moveConstruct usedPool).2 = MemoryPool) := by
  decide

/-- C10 (move construction), amended: the destination receives exactly the source's
four pointers; the source's block-chain head becomes null, and its cursor, boundary
and free-list head keep their values. -/
theorem C10_move_construct (memoryPool : Pool) :
    (moveConstruct memoryPool).1 = memoryPool ∧
      (moveConstruct memoryPool).2.currentBlock_ = 0 ∧
      (moveConstruct memoryPool).2.currentSlot_ = memoryPool.currentSlot_ ∧
      (moveConstruct memoryPool).2.lastSlot_ = memoryPool.lastSlot_ ∧
      (moveConstruct memoryPool).2.freeSlot_ = memoryPool.freeSlot_ :=
  ⟨rfl, rfl, rfl, rfl, rfl⟩

/-- C11 (copy construction). Both copy constructors, from a pool of the same element type
and from a pool of another element type, produce the default-constructed pool, whose
four pointers are null; the source pool, the memory and the list of acquired blocks
are left as they were. -/
theorem C11_copy_yields_empty_pool (w : World) :
    (copyConstruct w).1 = MemoryPool ∧
      (copyConstructU w).1 = MemoryPool ∧
      (copyConstruct w).1.currentBlock_ = 0 ∧
      (copyConstruct w).1.currentSlot_ = 0 ∧
      (copyConstruct w).1.lastSlot_ = 0 ∧
      (copyConstruct w).1.freeSlot_ = 0 ∧
      (copyConstruct w).2 = w ∧
      (copyConstructU w).2 = w ∧
      (copyConstruct w).2.news = w.news ∧
      (copyConstruct w).2.pool = w.pool :=
  ⟨rfl, rfl, rfl, rfl, rfl, rfl, rfl, rfl, rfl, rfl⟩

/-- C12 (null is a no-op). In every state `deleteElement(nullptr)` and
`deallocate(nullptr, n)` return the state unchanged: the four pointers, every slot link
and hence the free list (same slots, same order, same end) are as before. -/
theorem C12_delete_null_is_noop (w : World) (n : Nat) :
    deleteElement w 0 = w ∧
      deallocate w 0 n = w ∧
      (∀ (ps : List Nat) (tail : Nat),
        FreeChain (deleteElement w 0).next (deleteElement w 0).pool.freeSlot_ ps tail
          ↔ FreeChain w.next w.pool.freeSlot_ ps tail) := by
  have h1 : deleteElement w 0 = w := by simp [deleteElement]
  have h2 : deallocate w 0 n = w := by simp [deallocate]
  refine ⟨h1, h2, ?_⟩
  intro ps tail
  rw [h1]

/-- C13 (deallocate pushes on the free list). For a non-null `p`, after `deallocate(p, n)`
the free-list head is `p`, the link of `p` is the earlier free-list head, every other
link is unchanged, and the block-chain head, the cursor, the boundary and the list of
blocks held are unchanged. -/
theorem C13_deallocate_pushes (w : World) (p n : Nat) (hp : p ≠ 0) :
    (deallocate w p n).pool.freeSlot_ = p ∧
      (deallocate w p n).next p = w.pool.freeSlot_ ∧
      (∀ a, a ≠ p → (deallocate w p n).next a = w.next a) ∧
      (deallocate w p n).pool.currentBlock_ = w.pool.currentBlock_ ∧
      (deallocate w p n).pool.currentSlot_ = w.pool.currentSlot_ ∧
      (deallocate w p n).pool.lastSlot_ = w.pool.lastSlot_ ∧
      (deallocate w p n).news = w.news := by
  rw [deallocate_pool w p n hp]
  refine ⟨rfl, setNext_same _ _ _, ?_, rfl, rfl, rfl, rfl⟩
  intro a ha
  exact setNext_other _ _ _ a ha

/-- Witness for C13: pushing the slot `4112` on a free list that holds `4096`. -/
theorem C13_deallocate_pushes_witness :
    (deallocate recycledWorld 4112 1).pool.freeSlot_ = 4112 ∧
      (deallocate recycledWorld 4112 1).next 4112 = 4096 ∧
      (deallocate recycledWorld 4112 1).pool.currentBlock_ = 4104 ∧
      (deallocate recycledWorld 4112 1).news = [4096] :=
  ⟨(C13_deallocate_pushes recycledWorld 4112 1 (by decide)).1,
    (C13_deallocate_pushes recycledWorld 4112 1 (by decide)).2.1,
    (C13_deallocate_pushes recycledWorld 4112 1 (by decide)).2.2.2.1,
    (C13_deallocate_pushes recycledWorld 4112 1 (by decide)).2.2.2.2.2.2⟩

/-- C14 (recycled slots first). Whenever the free list is non-empty, whatever the cursor
and the boundary are, `allocate` returns the free-list head and makes that slot's link
the new head; it acquires no block and leaves the block-chain head, the cursor, the
boundary and the memory unchanged. -/
theorem C14_allocate_pops_free_list (cfg : Config) (os : Nat → Nat) (w : World) (n hint : Nat)
    (hfree : w.pool.freeSlot_ ≠ 0) :
    (allocate cfg os w n hint).1 = some w.pool.freeSlot_ ∧
      (allocate cfg os w n hint).2.pool.freeSlot_ = w.next w.pool.freeSlot_ ∧
      (allocate cfg os w n hint).2.news = w.news ∧
      (allocate cfg os w n hint).2.pool.currentBlock_ = w.pool.currentBlock_ ∧
      (allocate cfg os w n hint).2.pool.currentSlot_ = w.pool.currentSlot_ ∧
      (allocate cfg os w n hint).2.pool.lastSlot_ = w.pool.lastSlot_ ∧
      (allocate cfg os w n hint).2.next = w.next := by
  simp [allocate, hfree]

/-- Witness for C14: with `4096` on the free list and the cursor (`5136`) still below the
boundary (`8185`), `allocate` returns `4096` and empties the free list. -/
theorem C14_allocate_pops_free_list_witness :
    recycledWorld.pool.currentSlot_ < recycledWorld.pool.lastSlot_ ∧
      (allocate intPool pageOs recycledWorld 1 0).1 = some 4096 ∧
      (allocate intPool pageOs recycledWorld 1 0).2.pool.freeSlot_ = 0 ∧
      (allocate intPool pageOs recycledWorld 1 0).2.news = [4096] :=
  ⟨by decide,
    (C14_allocate_pops_free_list intPool pageOs recycledWorld 1 0 (by decide)).1,
    (C14_allocate_pops_free_list intPool pageOs recycledWorld 1 0 (by decide)).2.1,
    (C14_allocate_pops_free_list intPool pageOs recycledWorld 1 0 (by decide)).2.2.1⟩

/-- C15 (steady-state reuse in the timing loop). On a fresh pool, with a system allocator
that returns a non-null block, `n = rest.length + 1` iterations of
`x = newElement(); deleteElement(x)` acquire exactly one block in total; every
iteration's `newElement` returns the same address, and the four pointers after every
iteration are those after the first iteration. -/
theorem C15_timing_loop_steady (cfg : Config) (os : Nat → Nat) (next : Nat → Nat)
    (image : Nat) (rest : List Nat) (hnew : os 0 ≠ 0) :
    (timingLoop cfg os (image :: rest) (fresh next)).1
        = List.replicate (rest.length + 1)
            (some (os 0), (newDeleteIteration cfg os (fresh next) image).2.pool) ∧
      (timingLoop cfg os (image :: rest) (fresh next)).2.news = [os 0] := by
  have h1 := newDeleteIteration_fresh cfg os next image hnew
  have h := timingLoop_steady cfg os (os 0) hnew rest
    { pool := { (afterFirstAllocate cfg os next).pool with freeSlot_ := os 0 },
      next := setNext (setNext (setNext next (os 0) 0) (os 0) image) (os 0) 0,
      news := [os 0] } rfl (setNext_same _ _ _)
  simp only [timingLoop, h1, List.replicate_succ]
  exact ⟨by rw [h.1], h.2⟩

/-- Witness for C15: three iterations on a fresh `MemoryPool<int>` with the block at `4096`;
each returns `4096` and leaves the pointers `4104, 5136, 8185, 4096`. -/
theorem C15_timing_loop_steady_witness :
    (timingLoop intPool pageOs [0, 0, 0] (fresh zeroMem)).1
        = [(some 4096, { currentBlock_ := 4104, currentSlot_ := 5136, lastSlot_ := 8185,
                         freeSlot_ := 4096 }),
           (some 4096, { currentBlock_ := 4104, currentSlot_ := 5136, lastSlot_ := 8185,
                         freeSlot_ := 4096 }),
           (some 4096, { currentBlock_ := 4104, currentSlot_ := 5136, lastSlot_ := 8185,
                         freeSlot_ := 4096 })] ∧
      (timingLoop intPool pageOs [0, 0, 0] (fresh zeroMem)).2.news = [4096] :=
  C15_timing_loop_steady intPool pageOs zeroMem 0 [0, 0] (by decide)

/-- C16 (carving boundary). For a block `[b, b + BlockSize)` that lies inside the address
space, a slot width that holds at least a pointer and is at most the block size: after
`allocateBlock`, an address `a` is below `lastSlot_` exactly when a whole slot starting
at `a` ends inside the block. -/
theorem C16_lastSlot_boundary (cfg : Config) (os : Nat → Nat) (w : World) (a : Nat)
    (hfit : os w.news.length + cfg.BlockSize ≤ WORD)
    (hslot : sizeofPointer ≤ cfg.sizeofSlot)
    (hle : cfg.sizeofSlot ≤ cfg.BlockSize) :
    a < (allocateBlock cfg os w).pool.lastSlot_
      ↔ a + cfg.sizeofSlot ≤ os w.news.length + cfg.BlockSize := by
  simp only [allocateBlock, addW, subW, WORD, sizeofPointer] at *
  omega

/-- Witness for C16: `MemoryPool<int>` with its block at `4096`; the boundary is `8185`, the
slot at `8184` fits (`8184 + 8 = 8192`). -/
theorem C16_lastSlot_boundary_witness :
    (allocateBlock intPool pageOs (fresh zeroMem)).pool.lastSlot_ = 8185 ∧
      (8184 < (allocateBlock intPool pageOs (fresh zeroMem)).pool.lastSlot_
        ↔ 8184 + intPool.sizeofSlot ≤ pageOs (fresh zeroMem).news.length + intPool.BlockSize) :=
  ⟨by decide,
    C16_lastSlot_boundary intPool pageOs (fresh zeroMem) 8184 (by decide) (by decide)
      (by decide)⟩

/-- C17 (block chain). In every state `allocateBlock` makes the block just obtained the
chain head, stores the earlier chain head in that block's back-link and keeps the
free-list head.  After `m` calls on an empty pool, with a system allocator that hands
out pairwise-distinct non-null blocks, the back-links lead from the chain head through
exactly the `m` acquired blocks, newest first, to null, and the destructor loop, given
`m` or more iterations, releases exactly these blocks in that order. -/
theorem C17_block_chain (cfg : Config) (os : Nat → Nat) (w : World) (next : Nat → Nat)
    (m extra : Nat)
    (hdistinct : ∀ i j, i < m → j < m → os i = os j → i = j)
    (hnonnull : ∀ i, i < m → os i ≠ 0) :
    (allocateBlock cfg os w).news = os w.news.length :: w.news ∧
      (allocateBlock cfg os w).pool.currentBlock_ = os w.news.length ∧
      (allocateBlock cfg os w).next (os w.news.length) = w.pool.currentBlock_ ∧
      (allocateBlock cfg os w).pool.freeSlot_ = w.pool.freeSlot_ ∧
      (allocateBlockN cfg os m (fresh next)).news = blocksNewestFirst os m ∧
      FreeChain (allocateBlockN cfg os m (fresh next)).next
        (allocateBlockN cfg os m (fresh next)).pool.currentBlock_
        (blocksNewestFirst os m) 0 ∧
      destructor (m + extra) (allocateBlockN cfg os m (fresh next))
        = some (blocksNewestFirst os m) := by
  obtain ⟨hnews, hchain⟩ := allocateBlockN_chain cfg os next m hdistinct
  have hnz : ∀ p ∈ blocksNewestFirst os m, p ≠ 0 := by
    intro p hp
    obtain ⟨i, hi, h⟩ := (mem_blocksNewestFirst os m p).mp hp
    exact h ▸ hnonnull i hi
  have hd := destructorLoop_chain _ _ _ extra hchain hnz
  rw [blocksNewestFirst_length] at hd
  exact ⟨rfl, rfl, setNext_same _ _ _, rfl, hnews, hchain, hd⟩

/-- Witness for C17: three calls of `allocateBlock` on an empty pool with blocks at
`4096, 8192, 12288`; the destructor releases `12288, 8192, 4096`. -/
theorem C17_block_chain_witness :
    (allocateBlockN intPool pageOs 3 (fresh zeroMem)).news = [12288, 8192, 4096] ∧
      destructor 3 (allocateBlockN intPool pageOs 3 (fresh zeroMem))
        = some [12288, 8192, 4096] :=
  ⟨(C17_block_chain intPool pageOs (fresh zeroMem) zeroMem 3 0
      (by intro i j _ _ h; unfold pageOs at h; omega)
      (by intro i _; unfold pageOs; omega)).2.2.2.2.1,
    (C17_block_chain intPool pageOs (fresh zeroMem) zeroMem 3 0
      (by intro i j _ _ h; unfold pageOs at h; omega)
      (by intro i _; unfold pageOs; omega)).2.2.2.2.2.2⟩

/-- Neither `allocate` nor `deallocate` reads its count or hint, so the state after the
call does not depend on them. -/
theorem state_ignores_count_and_hint (cfg : Config) (os : Nat → Nat) (w : World)
    (n hint p : Nat) :
    (allocate cfg os w n hint).2 = (allocate cfg os w 1 0).2 ∧
      deallocate w p n = deallocate w p 1 :=
  ⟨rfl, rfl⟩

/-- What the statements of the move-assignment body do to two distinct objects before
control reaches the end of the function: the block-chain heads are exchanged, `self`
takes the cursor, boundary and free-list head of `other`, which keeps them, and no other
object changes; for `self = other` the statements are skipped. -/
theorem moveAssignBody_effect (objs : Nat → Pool) (self other : Nat) (hne : self ≠ other) :
    ((moveAssignBody objs self other).1 self).currentBlock_ = (objs other).currentBlock_ ∧
      ((moveAssignBody objs self other).1 other).currentBlock_ = (objs self).currentBlock_ ∧
      ((moveAssignBody objs self other).1 self).currentSlot_ = (objs other).currentSlot_ ∧
      ((moveAssignBody objs self other).1 self).lastSlot_ = (objs other).lastSlot_ ∧
      ((moveAssignBody objs self other).1 self).freeSlot_ = (objs other).freeSlot_ ∧
      ((moveAssignBody objs self other).1 other).currentSlot_ = (objs other).currentSlot_ ∧
      ((moveAssignBody objs self other).1 other).lastSlot_ = (objs other).lastSlot_ ∧
      ((moveAssignBody objs self other).1 other).freeSlot_ = (objs other).freeSlot_ ∧
      (∀ x, x ≠ self → x ≠ other → (moveAssignBody objs self other).1 x = objs x) ∧
      (moveAssignBody objs self self).1 = objs := by
  have hne2 : other ≠ self := fun h => hne h.symm
  have hs : (moveAssignBody objs self other).1 self =
      { currentBlock_ := (objs other).currentBlock_,
        currentSlot_ := (objs other).currentSlot_,
        lastSlot_ := (objs other).lastSlot_,
        freeSlot_ := (objs other).freeSlot_ } := by
    simp [moveAssignBody, hne]
  have ho : (moveAssignBody objs self other).1 other =
      { objs other with currentBlock_ := (objs self).currentBlock_ } := by
    simp [moveAssignBody, hne, hne2]
  refine ⟨by rw [hs], by rw [ho], by rw [hs], by rw [hs], by rw [hs], by rw [ho], by rw [ho],
    by rw [ho], ?_, ?_⟩
  · intro x hx1 hx2
    simp [moveAssignBody, hne, hx1, hx2]
  · simp [moveAssignBody]

/-- C18 (count and hint are ignored). What the code does in the state reached after one
allocation on a fresh `MemoryPool<int>` (empty free list, `currentBlock_ = 4104` below
`lastSlot_ = 8185`): for every count and hint, the pair `(1, nullptr)` included,
`allocate` assigns nothing to `result`, leaves the state as it is and returns no
determinate address; there is no address that the two calls both return. -/
theorem C18_no_address_returned (next : Nat → Nat) (n hint : Nat) :
    allocate intPool pageOs (afterFirstAllocate intPool pageOs next) n hint
        = (none, afterFirstAllocate intPool pageOs next) ∧
      allocate intPool pageOs (afterFirstAllocate intPool pageOs next) 1 0
        = (none, afterFirstAllocate intPool pageOs next) ∧
      ¬ ∃ a : Nat,
        (allocate intPool pageOs (afterFirstAllocate intPool pageOs next) n hint).1 = some a ∧
          (allocate intPool pageOs (afterFirstAllocate intPool pageOs next) 1 0).1 = some a := by
  have hp := afterFirstAllocate_intPool next
  have hfree : (afterFirstAllocate intPool pageOs next).pool.freeSlot_ = 0 := by
    rw [hp]; rfl
  have hlt : (afterFirstAllocate intPool pageOs next).pool.currentBlock_
      < (afterFirstAllocate intPool pageOs next).pool.lastSlot_ := by
    rw [hp]; decide
  have h1 := allocate_unassigned intPool pageOs (afterFirstAllocate intPool pageOs next)
    n hint hfree hlt
  have h2 := allocate_unassigned intPool pageOs (afterFirstAllocate intPool pageOs next)
    1 0 hfree hlt
  refine ⟨h1, h2, ?_⟩
  rintro ⟨a, ha, _⟩
  rw [h1] at ha
  exact Option.noConfusion ha

/-- C19 (move assignment). What the code does: the body has no `return` statement, so
every call of the move-assignment operator, between two distinct pools or of a pool to
itself, reaches the end of a function that must return `MemoryPool&` and has no
defined outcome.  Shown for all objects and at the empty pool at address `1` assigned
from the used pool at address `2`, where the statements before the end have exchanged
the chain heads (`4104` and null). -/
theorem C19_move_assign_has_no_outcome (objs : Nat → Pool) (self other : Nat) :
    (moveAssignBody objs self other).2 = none ∧
      moveAssign objs self other = none ∧
      moveAssign objs self self = none ∧
      moveAssign twoPools 1 2 = none ∧
      ((moveAssignBody twoPools 1 2).1 1).currentBlock_ = 4104 ∧
      ((moveAssignBody twoPools 1 2).1 2).currentBlock_ = 0 :=
  ⟨rfl, rfl, rfl, rfl, rfl, rfl⟩

end MemoryPool
